import Mathlib

/-!
Verification of the dkg.js client core: shallow embedding of the
UAL codec (`deriveUAL` / `resolveUAL`), the contract executors
(`executeContractFunction` / `callContractFunction`), the operation
result resolver (`_getResult`), the streaming search poller
(`_getSearchResult`), the proof validator (`_performValidation`),
and the `AbstractClient` constructor defaults.

JavaScript strings are modelled as `List Char`; JavaScript runtime
values that matter for truthiness are modelled by `JsVal`; the
external collaborators (web3 RPC calls, axios HTTP requests) are
modelled as oracles indexed by attempt / poll number, returning
`Except`/plain data. Loops are modelled by fuel-indexed structural
recursion returning `none` on fuel exhaustion, paired with the number
of attempts / polls / ticks performed.
-/

deriving instance DecidableEq for Except

/-- Model of a JavaScript runtime value, sufficient to decide truthiness. -/
inductive JsVal
  | vUndefined
  | vNull
  | vBool (b : Bool)
  | vNum (n : Int)
  | vStr (s : String)
  | vObj (id : Nat)
deriving DecidableEq

/-- JavaScript truthiness of a `JsVal` (NaN is not modelled; numbers are `Int`). -/
def truthy : JsVal → Bool
  | .vUndefined => false
  | .vNull => false
  | .vBool b => b
  | .vNum n => decide (n ≠ 0)
  | .vStr s => decide (s ≠ "")
  | .vObj _ => true

/-! ## UAL codec (`Utilities.deriveUAL` / `Utilities.resolveUAL`) -/

/-- JavaScript `String.prototype.split` with a single-character separator:
splits a character list at every occurrence of `sep`; the empty string
splits to `[""]`. -/
def splitOnChar (sep : Char) : List Char → List (List Char)
  | [] => [[]]
  | c :: rest =>
    match splitOnChar sep rest with
    | [] => [[c]]
    | h :: t => if c = sep then [] :: h :: t else (c :: h) :: t

/-- JavaScript `String.prototype.toLowerCase` on the ASCII fragment. -/
def lowerStr (l : List Char) : List Char := l.map Char.toLower

/-- JavaScript `blockchain.startsWith('otp')` (case-sensitive). -/
def startsWithOtp (l : List Char) : Bool := decide (l.take 3 = ['o', 't', 'p'])

/-- The chain normalization inlined in `deriveUAL`:
`blockchain.startsWith('otp') ? 'otp' : blockchain.toLowerCase()`. -/
def normalizeChain (blockchain : List Char) : List Char :=
  if startsWithOtp blockchain then ("otp".data) else lowerStr blockchain

/-- Digit character for `d < 10` (other inputs are unused). -/
def natDigitChar : Nat → Char
  | 0 => '0'
  | 1 => '1'
  | 2 => '2'
  | 3 => '3'
  | 4 => '4'
  | 5 => '5'
  | 6 => '6'
  | 7 => '7'
  | 8 => '8'
  | 9 => '9'
  | _ => '?'

/-- Little-endian decimal digits of `n`, with structural fuel (adequate when
`n ≤ fuel`). -/
def natDigitsLE : Nat → Nat → List Nat
  | _, 0 => []
  | 0, _ => []
  | fuel + 1, n + 1 => (n + 1) % 10 :: natDigitsLE fuel ((n + 1) / 10)

/-- Decimal rendering of a natural number, as produced by the JavaScript
template-literal interpolation of a nonnegative integer. -/
def natToDigits (n : Nat) : List Char :=
  if n = 0 then ['0'] else ((natDigitsLE n n).reverse.map natDigitChar)

/-- Numeric value of an ASCII digit character. -/
def digitVal (c : Char) : Nat := c.toNat - 48

/-- JavaScript leading-whitespace characters recognized by `parseInt`. -/
def jsWhitespace (c : Char) : Bool := c = ' ' ∨ c = '\t' ∨ c = '\n' ∨ c = '\r'

/-- Value of the leading digit run of `l`; `none` when there is no digit
(JavaScript `NaN`). -/
def parseDigits (l : List Char) : Option Nat :=
  let ds := l.takeWhile (fun c => c.isDigit)
  if ds.isEmpty then none
  else some (ds.foldl (fun a c => 10 * a + digitVal c) 0)

/-- JavaScript `parseInt(s, 10)`: skip leading whitespace, optional sign,
then the value of the leading digit run; `none` models `NaN`. -/
def jsParseInt10 (l : List Char) : Option Int :=
  match l.dropWhile (fun c => jsWhitespace c) with
  | [] => none
  | c :: rest =>
    if c = '-' then (parseDigits rest).map (fun n => -(n : Int))
    else if c = '+' then (parseDigits rest).map (fun n => (n : Int))
    else (parseDigits (c :: rest)).map (fun n => (n : Int))

/-- The record returned by `resolveUAL`; `tokenId` is `none` when
`parseInt` yields `NaN`. -/
structure UALRecord where
  blockchain : List Char
  contract : List Char
  tokenId : Option Int
deriving DecidableEq

/-- Exceptions thrown by `resolveUAL`: the explicit format `Error`, or the
implicit `TypeError` raised when `segments[2] + segments[3]` evaluates to the
number `NaN` (both operands `undefined`) and `.split` is called on it. -/
inductive ResolveError
  | typeError
  | formatError (ual : List Char)
deriving DecidableEq

/-- `Utilities.deriveUAL(blockchain, contract, tokenId)`. -/
def deriveUAL (blockchain contract : List Char) (tokenId : Nat) : List Char :=
  "did:dkg:".data ++ normalizeChain blockchain ++
    '/' :: (lowerStr contract ++ '/' :: natToDigits tokenId)

/-- The `argsString` computation of `resolveUAL`:
`segments.length === 3 ? segments[2] : segments[2] + segments[3]`.
Returns `none` when a `+` operand is `undefined` (the sum is then the
number `NaN`, not a string). -/
def reassembleArgs (segments : List (List Char)) : Option (List Char) :=
  if segments.length = 3 then segments[2]?
  else
    match segments[2]?, segments[3]? with
    | some a, some b => some (a ++ b)
    | _, _ => none

/-- `Utilities.resolveUAL(ual)`. -/
def resolveUAL (ual : List Char) : Except ResolveError UALRecord :=
  match reassembleArgs (splitOnChar ':' ual) with
  | none => .error .typeError
  | some argsString =>
    match splitOnChar '/' argsString with
    | [b, c, t] => .ok { blockchain := b, contract := c, tokenId := jsParseInt10 t }
    | _ => .error (.formatError ual)

/-! ## Contract executors (`executeContractFunction` / `callContractFunction`)

The web3 primitives are oracles indexed by the attempt number, so that
distinct attempts may fail or succeed independently. An attempt of
`executeContractFunction` runs the five steps estimate / encode /
build-tx / sign / broadcast, short-circuiting on the first thrown error. -/

/-- The transaction envelope built in step 3 of `executeContractFunction`
(the `from`/`to` address fields are constant and omitted). -/
structure Tx where
  gasPrice : JsVal
  gas : JsVal
  dataField : JsVal
deriving DecidableEq

/-- `this.web3.utils.toWei('100', 'Gwei')` (external, constant). -/
def gasPriceWei : JsVal := .vStr ("100000000000")

/-- `this.web3.utils.toWei('900', 'Kwei')` (external, constant). -/
def gasFloorWei : JsVal := .vStr ("900000")

/-- Per-attempt behavior of the external web3 primitives used by
`executeContractFunction`. -/
structure TxEnv where
  estimateGas : Nat → Except Unit JsVal
  encodeABI : Nat → Except Unit JsVal
  signTransaction : Nat → Tx → Except Unit JsVal
  sendSignedTransaction : Nat → JsVal → Except Unit JsVal

/-- One attempt of the `try` block of `executeContractFunction`:
estimate gas, encode the call, build the envelope with
`gas: gasLimit || toWei('900','Kwei')`, sign, broadcast. -/
def runTxAttempt (env : TxEnv) (attempt : Nat) : Except Unit JsVal := do
  let gasLimit ← env.estimateGas attempt
  let encodedABI ← env.encodeABI attempt
  let tx : Tx :=
    { gasPrice := gasPriceWei,
      gas := if truthy gasLimit then gasLimit else gasFloorWei,
      dataField := encodedABI }
  let createdTransaction ← env.signTransaction attempt tx
  env.sendSignedTransaction attempt createdTransaction

/-- The `while (!result)` loop of `executeContractFunction`, from attempt
number `k`: a thrown attempt sets `result = true` (so the loop exits and
returns `true`); a returned value exits the loop iff it is truthy. Returns
the final `result` and the number of attempts performed; `none` on fuel
exhaustion. -/
def executeContractFunction (env : TxEnv) : Nat → Nat → Option (JsVal × Nat)
  | 0, _ => none
  | fuel + 1, k =>
    match runTxAttempt env k with
    | .error _ => some (.vBool true, k + 1)
    | .ok v => if truthy v then some (v, k + 1) else executeContractFunction env fuel (k + 1)

/-- The `while (!result)` loop of `callContractFunction`, with the external
`contractInstance.methods[fn](...).call()` as a per-attempt oracle. -/
def callContractFunction (callFn : Nat → Except Unit JsVal) : Nat → Nat → Option (JsVal × Nat)
  | 0, _ => none
  | fuel + 1, k =>
    match callFn k with
    | .error _ => some (.vBool true, k + 1)
    | .ok v => if truthy v then some (v, k + 1) else callContractFunction callFn fuel (k + 1)

/-! ## Operation result resolver (`AbstractClient._getResult`) -/

/-- The `STATUSES` enumeration of `AbstractClient`. -/
inductive OpStatus
  | pending
  | completed
  | failed
deriving DecidableEq

/-- The `response.data` payload of a status poll: its `status`, its
`message` (read on FAILED), and an abstract remainder. -/
structure OpResponseData where
  status : OpStatus
  message : String
  body : Nat
deriving DecidableEq

/-- Errors thrown by `_getResult`: retry exhaustion, or the terminal-failure
`Error` carrying the server-supplied message. -/
inductive GetResultError
  | retriesExhausted
  | operationFailed (message : String)
deriving DecidableEq

/-- The `do … while (status === PENDING)` loop of `_getResult`, starting at
retry counter `retries`: each iteration first throws when
`retries > maxNumberOfRetries`, else increments the counter and polls
(poll `i` returns `polls i`). Returns the exiting response (or `.error ()`
for the retries-exhausted throw) and the number of polls performed. -/
def pollLoop (polls : Nat → OpResponseData) (maxRetries : Nat) :
    Nat → Nat → Option ((Except Unit OpResponseData) × Nat)
  | 0, _ => none
  | fuel + 1, retries =>
    if retries > maxRetries then some (.error (), retries)
    else
      let response := polls retries
      if response.status = .pending then pollLoop polls maxRetries fuel (retries + 1)
      else some (.ok response, retries + 1)

/-- `AbstractClient._getResult`: run the poll loop, then apply the
post-loop FAILED check (`throw Error(… response.data.message …)`), else
return `response.data`. -/
def getResult (polls : Nat → OpResponseData) (maxRetries fuel : Nat) :
    Option ((Except GetResultError OpResponseData) × Nat) :=
  match pollLoop polls maxRetries fuel 0 with
  | none => none
  | some (.error _, n) => some (.error .retriesExhausted, n)
  | some (.ok response, n) =>
    if response.status = .failed then some (.error (.operationFailed response.message), n)
    else some (.ok response, n)

/-! ## Streaming search poller (`AbstractClient._getSearchResult`) -/

/-- One fetched search payload: `itemListElement.length` and an abstract
remainder identifying the payload. -/
structure SearchPayload where
  itemCount : Nat
  body : Nat
deriving DecidableEq

/-- The `do … while (!timeoutFlag && numberOfResults > currentNumberOfResults)`
loop of `_getSearchResult`, from tick `t`: `responses t` is the payload
fetched at tick `t`, `timeoutFlag t` the value of the one-shot timer flag
when the loop condition is evaluated after tick `t`. Returns the last
fetched payload and the number of ticks performed. -/
def getSearchLoop (responses : Nat → SearchPayload) (timeoutFlag : Nat → Bool)
    (target : Nat) : Nat → Nat → Option (SearchPayload × Nat)
  | 0, _ => none
  | fuel + 1, t =>
    let resp := responses t
    if timeoutFlag t = false ∧ resp.itemCount < target then
      getSearchLoop responses timeoutFlag target fuel (t + 1)
    else some (resp, t + 1)

/-- `AbstractClient._getSearchResult` with its loop started at tick 0. -/
def getSearchResult (responses : Nat → SearchPayload) (timeoutFlag : Nat → Bool)
    (target fuel : Nat) : Option (SearchPayload × Nat) :=
  getSearchLoop responses timeoutFlag target fuel 0

/-! ## Proof validator (`AbstractClient._performValidation`) -/

/-- One entry of `assertion.proofs`; `proof = none` models a `null` proof. -/
structure ProofEntry where
  triple : String
  proof : Option String
deriving DecidableEq

/-- One assertion of the `_performValidation` input. -/
structure ProofAssertion where
  assertionId : String
  proofs : List ProofEntry
deriving DecidableEq

/-- The JavaScript value stored in the `valid` field of a validation
record: a boolean, or `undefined`. -/
inductive JsBoolVal
  | undefinedVal
  | jbool (b : Bool)
deriving DecidableEq

/-- One `{triple, valid}` record pushed onto `validationResult`. -/
structure ValidatedTriple where
  triple : String
  valid : JsBoolVal
deriving DecidableEq

/-- `AbstractClient._validateProof(obj, rootHash)`: the entire body is
commented out in the source, so the function returns `undefined` for every
input. -/
def validateProofFn (_obj : ProofEntry) (_rootHash : String) : JsBoolVal := .undefinedVal

/-- The inner `for (let obj of assertion.proofs)` loop of
`_performValidation`: a `null` proof is skipped (`continue`, no record);
otherwise the record `{triple, valid: _validateProof(obj, rootHash)}` is
pushed. -/
def performValidationOne (rootHash : String) : List ProofEntry → List ValidatedTriple
  | [] => []
  | obj :: rest =>
    match obj.proof with
    | none => performValidationOne rootHash rest
    | some _ =>
      { triple := obj.triple, valid := validateProofFn obj rootHash } ::
        performValidationOne rootHash rest

/-- `AbstractClient._performValidation(assertions)`, with the root hash
fetched per assertion modelled by the oracle `rootHashOf`. -/
def performValidation (rootHashOf : String → String) :
    List ProofAssertion → List ValidatedTriple
  | [] => []
  | a :: rest =>
    performValidationOne (rootHashOf a.assertionId) a.proofs ++
      performValidation rootHashOf rest

/-! ## `AbstractClient` constructor defaults -/

/-- The numeric options accepted by the `AbstractClient` constructor;
`none` models an absent (`undefined`) option. -/
structure ClientOptions where
  maxNumberOfRetries : Option Int
  timeoutInSeconds : Option Int
  numberOfResults : Option Int
  frequency : Option Int
deriving DecidableEq

/-- The corresponding fields of the constructed client. -/
structure ClientConfig where
  maxNumberOfRetries : Int
  timeoutInSeconds : Int
  numberOfResults : Int
  frequency : Int
deriving DecidableEq

/-- The constructor's option pattern
`options.x && options.x >= 0 ? options.x : this.defaultX`:
the passed value is used only when it is truthy (nonzero) and nonnegative. -/
def pickOption (x : Option Int) (dflt : Int) : Int :=
  match x with
  | none => dflt
  | some v => if truthy (.vNum v) && decide (v ≥ 0) then v else dflt

/-- The `AbstractClient` constructor restricted to its four numeric
fields, with their defaults 5, 25, 2000 and 5. -/
def mkAbstractClient (o : ClientOptions) : ClientConfig :=
  { maxNumberOfRetries := pickOption o.maxNumberOfRetries 5,
    timeoutInSeconds := pickOption o.timeoutInSeconds 25,
    numberOfResults := pickOption o.numberOfResults 2000,
    frequency := pickOption o.frequency 5 }

/-! ## Definitions of concrete scenario inputs used in witnesses -/

/-- Scenario of C1: gas estimation throws on the first two attempts and
succeeds afterwards; encoding, signing and broadcasting always succeed. -/
def gasFailTwiceEnv : TxEnv :=
  { estimateGas := fun attempt => if attempt < 2 then .error () else .ok (.vNum 21000),
    encodeABI := fun _ => .ok (.vStr ("0xdata")),
    signTransaction := fun _ _ => .ok (.vObj 1),
    sendSignedTransaction := fun _ _ => .ok (.vObj 2) }

/-- A read call that always throws. -/
def alwaysThrowCall : Nat → Except Unit JsVal := fun _ => .error ()

/-- Status sequence PENDING, PENDING, COMPLETED, … -/
def ppcSeq : Nat → OpResponseData := fun i =>
  if i = 0 then { status := .pending, message := "", body := 0 }
  else if i = 1 then { status := .pending, message := "", body := 1 }
  else { status := .completed, message := "", body := 2 }

/-- Status sequence that is always PENDING. -/
def pendConst : Nat → OpResponseData := fun _ =>
  { status := .pending, message := "", body := 0 }

/-- Status sequence that is immediately COMPLETED. -/
def completedConst : Nat → OpResponseData := fun _ =>
  { status := .completed, message := "", body := 7 }

/-- Status sequence that is immediately FAILED with message "bad request". -/
def failBadRequest : Nat → OpResponseData := fun _ =>
  { status := .failed, message := "bad request", body := 0 }

/-- Search result payloads with counts 5, 50, 2000, … -/
def searchSeq : Nat → SearchPayload := fun t =>
  if t = 0 then { itemCount := 5, body := 0 }
  else if t = 1 then { itemCount := 50, body := 1 }
  else { itemCount := 2000, body := 2 }

/-- A timeout flag that is observed raised from the second check onwards. -/
def flagFromOne : Nat → Bool := fun t => decide (1 ≤ t)

/-- A timeout flag that never raises within the observed window. -/
def falseFlag : Nat → Bool := fun _ => false

/-- A root-hash oracle returning the fixed hash "root". -/
def constRootHash : String → String := fun _ => "root"

/-- A single assertion whose one proof entry is non-null (and would match
the root hash "root"). -/
def matchingProofInput : List ProofAssertion :=
  [{ assertionId := "A1", proofs := [{ triple := "t1", proof := some ("p1") }] }]

/-- A single assertion whose one proof entry is null. -/
def nullProofInput : List ProofAssertion :=
  [{ assertionId := "A1", proofs := [{ triple := "t0", proof := none }] }]

/-- Constructor options passing 0 for every numeric option. -/
def zeroOptions : ClientOptions :=
  { maxNumberOfRetries := some 0, timeoutInSeconds := some 0,
    numberOfResults := some 0, frequency := some 0 }

/-! ## Helper lemmas: splitting, digits, parsing -/

theorem splitOnChar_ne_nil (sep : Char) (l : List Char) : splitOnChar sep l ≠ [] := by
  induction l with
  | nil => simp [splitOnChar]
  | cons c rest ih =>
    obtain ⟨x, xs, hx⟩ := List.exists_cons_of_ne_nil ih
    simp only [splitOnChar, hx]
    by_cases hc : c = sep <;> simp [hc]

theorem splitOnChar_not_mem {sep : Char} {l : List Char} (h : sep ∉ l) :
    splitOnChar sep l = [l] := by
  induction l with
  | nil => rfl
  | cons c rest ih =>
    rw [List.mem_cons, not_or] at h
    obtain ⟨h1, h2⟩ := h
    simp only [splitOnChar, ih h2]
    rw [if_neg (fun e => h1 e.symm)]

theorem splitOnChar_append_sep {sep : Char} {a : List Char} (b : List Char) (h : sep ∉ a) :
    splitOnChar sep (a ++ sep :: b) = a :: splitOnChar sep b := by
  induction a with
  | nil =>
    obtain ⟨x, xs, hx⟩ := List.exists_cons_of_ne_nil (splitOnChar_ne_nil sep b)
    simp [splitOnChar, hx]
  | cons c a' ih =>
    rw [List.mem_cons, not_or] at h
    obtain ⟨h1, h2⟩ := h
    rw [List.cons_append]
    simp only [splitOnChar, List.append_eq, ih h2]
    rw [if_neg (fun e => h1 e.symm)]

theorem natDigitChar_digitVal {d : Nat} (h : d < 10) :
    digitVal (natDigitChar d) = d ∧ (natDigitChar d).isDigit = true := by
  interval_cases d <;> exact ⟨by decide, by decide⟩

theorem natDigitsLE_lt : ∀ fuel n d, d ∈ natDigitsLE fuel n → d < 10 := by
  intro fuel
  induction fuel with
  | zero => intro n d hd; cases n <;> simp [natDigitsLE] at hd
  | succ f ih =>
    intro n d hd
    cases n with
    | zero => simp [natDigitsLE] at hd
    | succ m =>
      simp only [natDigitsLE, List.mem_cons] at hd
      rcases hd with h | h
      · subst h; exact Nat.mod_lt _ (by omega)
      · exact ih _ _ h

theorem natDigitsLE_foldr : ∀ fuel n, n ≤ fuel →
    (natDigitsLE fuel n).foldr (fun d a => 10 * a + d) 0 = n := by
  intro fuel
  induction fuel with
  | zero => intro n h; interval_cases n; rfl
  | succ f ih =>
    intro n h
    cases n with
    | zero => rfl
    | succ m =>
      simp only [natDigitsLE, List.foldr_cons]
      have hdiv : (m + 1) / 10 < m + 1 := Nat.div_lt_self (Nat.succ_pos m) (by omega)
      rw [ih ((m + 1) / 10) (by omega)]
      omega

theorem natToDigits_isDigit (n : Nat) : ∀ c ∈ natToDigits n, c.isDigit = true := by
  intro c hc
  unfold natToDigits at hc
  by_cases h : n = 0
  · rw [if_pos h] at hc
    simp at hc
    subst hc
    decide
  · rw [if_neg h] at hc
    simp only [List.mem_map, List.mem_reverse] at hc
    obtain ⟨d, hd, rfl⟩ := hc
    exact (natDigitChar_digitVal (natDigitsLE_lt _ _ _ hd)).2

theorem isDigit_ne {c : Char} (h : c.isDigit = true) :
    jsWhitespace c = false ∧ c ≠ '-' ∧ c ≠ '+' ∧ c ≠ ':' ∧ c ≠ '/' := by
  refine ⟨?_, ?_, ?_, ?_, ?_⟩
  · cases hw : jsWhitespace c with
    | false => rfl
    | true =>
      simp only [jsWhitespace, decide_eq_true_eq] at hw
      rcases hw with rfl | rfl | rfl | rfl <;> exact absurd h (by decide)
  all_goals (rintro rfl; exact absurd h (by decide))

theorem takeWhile_eq_self {p : Char → Bool} {l : List Char} (h : ∀ c ∈ l, p c = true) :
    l.takeWhile p = l := by
  induction l with
  | nil => rfl
  | cons c cs ih =>
    rw [List.takeWhile_cons, h c (List.mem_cons_self c cs)]
    simp [ih fun x hx => h x (List.mem_cons_of_mem _ hx)]

theorem foldr_digit_eq : ∀ (l : List Nat), (∀ d ∈ l, d < 10) →
    l.foldr (fun d a => 10 * a + digitVal (natDigitChar d)) 0 =
      l.foldr (fun d a => 10 * a + d) 0 := by
  intro l
  induction l with
  | nil => intro _; rfl
  | cons d ds ih =>
    intro h
    simp only [List.foldr_cons]
    rw [ih (fun x hx => h x (List.mem_cons_of_mem _ hx)),
      (natDigitChar_digitVal (h d (List.mem_cons_self d ds))).1]

theorem jsParseInt10_digits {l : List Char} (hne : l ≠ []) (hd : ∀ c ∈ l, c.isDigit = true) :
    jsParseInt10 l = some ((l.foldl (fun a c => 10 * a + digitVal c) 0 : Nat) : Int) := by
  obtain ⟨c, cs, rfl⟩ := List.exists_cons_of_ne_nil hne
  have hc := hd c (List.mem_cons_self c cs)
  obtain ⟨hws, hminus, hplus, -, -⟩ := isDigit_ne hc
  unfold jsParseInt10
  rw [List.dropWhile_cons, hws]
  simp only [Bool.false_eq_true, if_false, if_neg hminus, if_neg hplus]
  unfold parseDigits
  rw [takeWhile_eq_self hd]
  simp [List.isEmpty]

theorem jsParseInt10_natToDigits (n : Nat) : jsParseInt10 (natToDigits n) = some (n : Int) := by
  by_cases h0 : n = 0
  · subst h0; decide
  · have hne : natToDigits n ≠ [] := by
      unfold natToDigits
      rw [if_neg h0]
      cases n with
      | zero => exact absurd rfl h0
      | succ m => simp [natDigitsLE]
    rw [jsParseInt10_digits hne (natToDigits_isDigit n)]
    congr 1
    unfold natToDigits
    rw [if_neg h0, List.foldl_map, List.foldl_reverse]
    rw [foldr_digit_eq _ (fun d hd => natDigitsLE_lt _ _ _ hd)]
    rw [natDigitsLE_foldr n n (Nat.le_refl n)]

theorem natToDigits_not_colon (n : Nat) : ':' ∉ natToDigits n :=
  fun m => absurd (natToDigits_isDigit n _ m) (by decide)

theorem natToDigits_not_slash (n : Nat) : '/' ∉ natToDigits n :=
  fun m => absurd (natToDigits_isDigit n _ m) (by decide)

/-! ## UAL claim theorems -/

theorem mem_args_iff {x : Char} {nc lc ds : List Char} :
    x ∈ nc ++ '/' :: (lc ++ '/' :: ds) ↔ x ∈ nc ∨ x = '/' ∨ x ∈ lc ∨ x ∈ ds := by
  simp only [List.mem_append, List.mem_cons]
  tauto

/-- C4: for every valid input (normalized chain and lower-cased contract free
of the separators `:` and `/`), decoding the encoded UAL yields the
case-normalized input: the chain lower-cased (or collapsed to `otp` when it
starts with the reserved prefix `otp`), the contract lower-cased, and the
token id parsed back. -/
theorem resolveUAL_deriveUAL_roundtrip (blockchain contract : List Char) (tokenId : Nat)
    (h1 : ':' ∉ normalizeChain blockchain) (h2 : '/' ∉ normalizeChain blockchain)
    (h3 : ':' ∉ lowerStr contract) (h4 : '/' ∉ lowerStr contract) :
    resolveUAL (deriveUAL blockchain contract tokenId) =
      .ok { blockchain := normalizeChain blockchain, contract := lowerStr contract,
            tokenId := some (tokenId : Int) } := by
  have hual : deriveUAL blockchain contract tokenId =
      ['d', 'i', 'd'] ++ ':' :: (['d', 'k', 'g'] ++ ':' ::
        (normalizeChain blockchain ++ '/' ::
          (lowerStr contract ++ '/' :: natToDigits tokenId))) := rfl
  have hargs : ':' ∉ normalizeChain blockchain ++ '/' ::
      (lowerStr contract ++ '/' :: natToDigits tokenId) := by
    rw [mem_args_iff]
    push_neg
    exact ⟨h1, by decide, h3, natToDigits_not_colon tokenId⟩
  have hsplit : splitOnChar ':' (deriveUAL blockchain contract tokenId) =
      [['d', 'i', 'd'], ['d', 'k', 'g'],
        normalizeChain blockchain ++ '/' :: (lowerStr contract ++ '/' :: natToDigits tokenId)] := by
    rw [hual, splitOnChar_append_sep _ (by decide), splitOnChar_append_sep _ (by decide),
      splitOnChar_not_mem hargs]
  have hslash : splitOnChar '/'
      (normalizeChain blockchain ++ '/' :: (lowerStr contract ++ '/' :: natToDigits tokenId)) =
      [normalizeChain blockchain, lowerStr contract, natToDigits tokenId] := by
    rw [splitOnChar_append_sep _ h2, splitOnChar_append_sep _ h4,
      splitOnChar_not_mem (natToDigits_not_slash tokenId)]
  unfold resolveUAL
  rw [hsplit]
  simp only [reassembleArgs, List.length_cons, List.length_nil, reduceIte,
    List.getElem?_cons_succ, List.getElem?_cons_zero]
  rw [hslash]
  simp only [jsParseInt10_natToDigits]

theorem resolveUAL_deriveUAL_roundtrip_witness :
    ( ':' ∉ normalizeChain ("Polygon".data) ∧ '/' ∉ normalizeChain ("Polygon".data) ∧
      ':' ∉ lowerStr ("0xAbC9".data) ∧ '/' ∉ lowerStr ("0xAbC9".data) ) ∧
    resolveUAL (deriveUAL ("Polygon".data) ("0xAbC9".data) 42) =
      .ok { blockchain := normalizeChain ("Polygon".data), contract := lowerStr ("0xAbC9".data),
            tokenId := some 42 } :=
  ⟨by decide, resolveUAL_deriveUAL_roundtrip ("Polygon".data) ("0xAbC9".data) 42
    (by decide) (by decide) (by decide) (by decide)⟩

/-- C5 (counterexample): for the input "abc" — which does not split into
three `/`-delimited segments — `resolveUAL` raises a TypeError (calling
`.split` on the number `NaN`), not the format error the claim states. -/
theorem resolveUAL_short_input_type_error :
    resolveUAL ("abc".data) = .error .typeError ∧
    resolveUAL ("abc".data) ≠ .error (.formatError ("abc".data)) := by
  exact ⟨by decide, by decide⟩

/-- C5 (amended): an input whose reserved-prefix reassembly succeeds (at
least three `:`-separated segments) and whose reassembled argument string
does not split into exactly three `/`-delimited segments raises the format
error; an input with fewer than three `:`-separated segments instead
raises a TypeError before the three-segment check is reached. In both
cases no result is returned. -/
theorem resolveUAL_error_classification :
    (∀ ual argsString, reassembleArgs (splitOnChar ':' ual) = some argsString →
      (splitOnChar '/' argsString).length ≠ 3 →
      resolveUAL ual = .error (.formatError ual))
    ∧ (∀ ual, (splitOnChar ':' ual).length < 3 →
      resolveUAL ual = .error .typeError) := by
  constructor
  · intro ual argsString hre hlen
    have hstep : resolveUAL ual =
        match splitOnChar '/' argsString with
        | [b, c, t] => .ok { blockchain := b, contract := c, tokenId := jsParseInt10 t }
        | _ => .error (.formatError ual) := by
      unfold resolveUAL
      rw [hre]
    rw [hstep]
    rcases hargs : splitOnChar '/' argsString with _ | ⟨a, _ | ⟨b, _ | ⟨c, _ | ⟨d, rest⟩⟩⟩⟩
    · rfl
    · rfl
    · rfl
    · exact absurd (by rw [hargs]; rfl) hlen
    · rfl
  · intro ual hlen
    have h2 : (splitOnChar ':' ual)[2]? = none := by
      rw [List.getElem?_eq_none_iff]
      omega
    have hre : reassembleArgs (splitOnChar ':' ual) = none := by
      unfold reassembleArgs
      rw [if_neg (by omega), h2]
    unfold resolveUAL
    rw [hre]

theorem resolveUAL_error_classification_witness :
    ( reassembleArgs (splitOnChar ':' ("did:dkg:a/b".data)) = some ("a/b".data) ∧
      (splitOnChar '/' ("a/b".data)).length ≠ 3 ∧
      resolveUAL ("did:dkg:a/b".data) = .error (.formatError ("did:dkg:a/b".data)) ) ∧
    ( (splitOnChar ':' ("abc".data)).length < 3 ∧
      resolveUAL ("abc".data) = .error .typeError ) :=
  ⟨⟨by decide, by decide,
      resolveUAL_error_classification.1 ("did:dkg:a/b".data) ("a/b".data) (by decide) (by decide)⟩,
    ⟨by decide, resolveUAL_error_classification.2 ("abc".data) (by decide)⟩⟩

/-- C9: when a UAL splits into four or more `:`-separated segments, the
decoder reassembles the third and fourth segments by plain concatenation
(so a `:` inside the chain identifier is lost, e.g. chain `abc:def`
decodes to `abcdef`) and silently discards every segment past the fourth
before the three-segment check. -/
theorem resolveUAL_segment_reassembly :
    (∀ ual s0 s1 s2 s3 rest, splitOnChar ':' ual = s0 :: s1 :: s2 :: s3 :: rest →
      reassembleArgs (splitOnChar ':' ual) = some (s2 ++ s3))
    ∧ resolveUAL ("did:dkg:abc:def/ghi/5".data) =
        .ok { blockchain := "abcdef".data, contract := "ghi".data, tokenId := some 5 }
    ∧ resolveUAL ("did:dkg:a/b:c/5:junk:more".data) =
        .ok { blockchain := "a".data, contract := "bc".data, tokenId := some 5 } := by
  refine ⟨?_, by decide, by decide⟩
  intro ual s0 s1 s2 s3 rest h
  rw [h]
  unfold reassembleArgs
  rw [if_neg (by simp)]
  simp

theorem resolveUAL_segment_reassembly_witness :
    splitOnChar ':' ("did:dkg:w:x/y/z".data) =
      ["did".data, "dkg".data, "w".data, "x/y/z".data] ∧
    reassembleArgs (splitOnChar ':' ("did:dkg:w:x/y/z".data)) =
      some ("w".data ++ "x/y/z".data) :=
  ⟨by decide,
    resolveUAL_segment_reassembly.1 ("did:dkg:w:x/y/z".data)
      ("did".data) ("dkg".data) ("w".data) ("x/y/z".data) [] (by decide)⟩

/-! ## Executor loop lemmas and claim theorems -/

theorem executeContractFunction_eq_call (env : TxEnv) :
    ∀ fuel k, executeContractFunction env fuel k =
      callContractFunction (runTxAttempt env) fuel k := by
  intro fuel
  induction fuel with
  | zero => intro k; rfl
  | succ f ih =>
    intro k
    simp only [executeContractFunction, callContractFunction, ih]

theorem callContractFunction_attempts_lb (callFn : Nat → Except Unit JsVal) :
    ∀ fuel k v n, callContractFunction callFn fuel k = some (v, n) → k < n := by
  intro fuel
  induction fuel with
  | zero => intro k v n h; exact absurd h (by simp [callContractFunction])
  | succ f ih =>
    intro k v n h
    rcases hc : callFn k with e | u
    · simp only [callContractFunction, hc, Option.some.injEq, Prod.mk.injEq] at h
      omega
    · by_cases ht : truthy u = true
      · simp only [callContractFunction, hc, ht, if_true, Option.some.injEq,
          Prod.mk.injEq] at h
        omega
      · simp only [callContractFunction, hc, if_neg ht] at h
        have := ih (k + 1) v n h
        omega

theorem callContractFunction_repeat_falsy (callFn : Nat → Except Unit JsVal) :
    ∀ fuel k v n, callContractFunction callFn fuel k = some (v, n) →
      ∀ j, k ≤ j → j + 1 < n → ∃ u, callFn j = .ok u ∧ truthy u = false := by
  intro fuel
  induction fuel with
  | zero => intro k v n h; exact absurd h (by simp [callContractFunction])
  | succ f ih =>
    intro k v n h j hkj hjn
    rcases hc : callFn k with e | u
    · simp only [callContractFunction, hc, Option.some.injEq, Prod.mk.injEq] at h
      omega
    · by_cases ht : truthy u = true
      · simp only [callContractFunction, hc, ht, if_true, Option.some.injEq,
          Prod.mk.injEq] at h
        omega
      · simp only [callContractFunction, hc, if_neg ht] at h
        rcases Nat.lt_or_ge j (k + 1) with hj | hj
        · have hjk : j = k := by omega
          subst hjk
          exact ⟨u, hc, by simpa using ht⟩
        · exact ih (k + 1) v n h j hj hjn

/-- C1 (counterexample): in the claim's own scenario — gas estimation fails
on the first two attempts and succeeds afterwards, and sign+broadcast always
succeed — `executeContractFunction` performs exactly one attempt and returns
the boolean `true`, not the third attempt's broadcast result after three
attempts. -/
theorem execute_gas_fail_twice_one_attempt :
    executeContractFunction gasFailTwiceEnv 10 0 = some (.vBool true, 1) ∧
    executeContractFunction gasFailTwiceEnv 10 0 ≠ some (.vObj 2, 3) := by
  exact ⟨by decide, by decide⟩

/-- C1 (amended): in both executors, an exception thrown during an attempt
is caught and terminates the loop at once — the function returns the boolean
`true` after that single attempt, with no retry and no error surfaced; in
particular, in the gas-estimate-fails-twice scenario exactly one attempt
occurs and `true` is returned instead of the broadcast receipt. -/
theorem execute_error_single_attempt_returns_true :
    (∀ env fuel, 0 < fuel → runTxAttempt env 0 = .error () →
      executeContractFunction env fuel 0 = some (.vBool true, 1))
    ∧ (∀ callFn fuel, 0 < fuel → callFn 0 = .error () →
      callContractFunction callFn fuel 0 = some (.vBool true, 1))
    ∧ executeContractFunction gasFailTwiceEnv 10 0 = some (.vBool true, 1) := by
  have hcall : ∀ (callFn : Nat → Except Unit JsVal) fuel, 0 < fuel → callFn 0 = .error () →
      callContractFunction callFn fuel 0 = some (.vBool true, 1) := by
    intro callFn fuel hf hc
    obtain ⟨f, rfl⟩ : ∃ f, fuel = f + 1 := ⟨fuel - 1, by omega⟩
    simp only [callContractFunction, hc]
  refine ⟨?_, hcall, by decide⟩
  intro env fuel hf hc
  rw [executeContractFunction_eq_call]
  exact hcall (runTxAttempt env) fuel hf hc

theorem execute_error_single_attempt_returns_true_witness :
    (0 < 10 ∧ runTxAttempt gasFailTwiceEnv 0 = .error ()) ∧
    executeContractFunction gasFailTwiceEnv 10 0 = some (.vBool true, 1) :=
  ⟨⟨by decide, by decide⟩,
    execute_error_single_attempt_returns_true.1 gasFailTwiceEnv 10 (by decide) (by decide)⟩

/-- C8: whenever the underlying chain call of an attempt throws or returns a
truthy value, both executors terminate after exactly one attempt — on a
thrown error the caught exception makes the function return the boolean
`true` (no error surfaces, no retry); the loop body repeats only when the
underlying call returns a falsy value without throwing. -/
theorem contract_functions_single_attempt :
    (∀ callFn fuel, 0 < fuel → callFn 0 = .error () →
      callContractFunction callFn fuel 0 = some (.vBool true, 1))
    ∧ (∀ callFn fuel v, 0 < fuel → callFn 0 = .ok v → truthy v = true →
      callContractFunction callFn fuel 0 = some (v, 1))
    ∧ (∀ callFn fuel v n, callContractFunction callFn fuel 0 = some (v, n) →
      ∀ j, j + 1 < n → ∃ u, callFn j = .ok u ∧ truthy u = false)
    ∧ (∀ env fuel, 0 < fuel → runTxAttempt env 0 = .error () →
      executeContractFunction env fuel 0 = some (.vBool true, 1))
    ∧ (∀ env fuel v, 0 < fuel → runTxAttempt env 0 = .ok v → truthy v = true →
      executeContractFunction env fuel 0 = some (v, 1))
    ∧ (∀ env fuel v n, executeContractFunction env fuel 0 = some (v, n) →
      ∀ j, j + 1 < n → ∃ u, runTxAttempt env j = .ok u ∧ truthy u = false) := by
  have herr : ∀ (callFn : Nat → Except Unit JsVal) fuel, 0 < fuel → callFn 0 = .error () →
      callContractFunction callFn fuel 0 = some (.vBool true, 1) := by
    intro callFn fuel hf hc
    obtain ⟨f, rfl⟩ : ∃ f, fuel = f + 1 := ⟨fuel - 1, by omega⟩
    simp only [callContractFunction, hc]
  have hok : ∀ (callFn : Nat → Except Unit JsVal) fuel v, 0 < fuel → callFn 0 = .ok v →
      truthy v = true → callContractFunction callFn fuel 0 = some (v, 1) := by
    intro callFn fuel v hf hc ht
    obtain ⟨f, rfl⟩ : ∃ f, fuel = f + 1 := ⟨fuel - 1, by omega⟩
    simp only [callContractFunction, hc, ht, if_true]
  have hrep : ∀ (callFn : Nat → Except Unit JsVal) fuel v n,
      callContractFunction callFn fuel 0 = some (v, n) →
      ∀ j, j + 1 < n → ∃ u, callFn j = .ok u ∧ truthy u = false := by
    intro callFn fuel v n h j hj
    exact callContractFunction_repeat_falsy callFn fuel 0 v n h j (Nat.zero_le j) hj
  refine ⟨herr, hok, hrep, ?_, ?_, ?_⟩
  · intro env fuel hf hc
    rw [executeContractFunction_eq_call]
    exact herr (runTxAttempt env) fuel hf hc
  · intro env fuel v hf hc ht
    rw [executeContractFunction_eq_call]
    exact hok (runTxAttempt env) fuel v hf hc ht
  · intro env fuel v n h j hj
    rw [executeContractFunction_eq_call] at h
    exact hrep (runTxAttempt env) fuel v n h j hj

theorem contract_functions_single_attempt_witness :
    (0 < 5 ∧ alwaysThrowCall 0 = .error ()) ∧
    callContractFunction alwaysThrowCall 5 0 = some (.vBool true, 1) :=
  ⟨⟨by decide, by decide⟩,
    contract_functions_single_attempt.1 alwaysThrowCall 5 (by decide) (by decide)⟩

/-! ## Operation result resolver lemmas and claim theorems -/

theorem pollLoop_run (polls : Nat → OpResponseData) (mR : Nat) :
    ∀ fuel r n, r ≤ n → n ≤ mR →
      (∀ i, r ≤ i → i < n → (polls i).status = .pending) →
      (polls n).status ≠ .pending → n + 1 - r ≤ fuel →
      pollLoop polls mR fuel r = some (.ok (polls n), n + 1) := by
  intro fuel
  induction fuel with
  | zero => intro r n h1 h2 h3 h4 h5; omega
  | succ f ih =>
    intro r n h1 h2 h3 h4 h5
    rcases Nat.lt_or_ge r n with hr | hr
    · have hp : (polls r).status = .pending := h3 r (Nat.le_refl r) hr
      simp only [pollLoop, if_neg (by omega : ¬r > mR), hp, if_pos rfl]
      exact ih (r + 1) n (by omega) h2 (fun i hi1 hi2 => h3 i (by omega) hi2) h4 (by omega)
    · have hrn : r = n := by omega
      subst hrn
      simp only [pollLoop, if_neg (by omega : ¬r > mR), if_neg h4]

theorem pollLoop_exhaust (polls : Nat → OpResponseData) (mR : Nat) :
    ∀ fuel r, r ≤ mR + 1 →
      (∀ i, r ≤ i → i ≤ mR → (polls i).status = .pending) →
      mR + 2 - r ≤ fuel →
      pollLoop polls mR fuel r = some (.error (), mR + 1) := by
  intro fuel
  induction fuel with
  | zero => intro r h1 h2 h3; omega
  | succ f ih =>
    intro r h1 h2 h3
    rcases Nat.lt_or_ge mR r with hr | hr
    · have hrm : r = mR + 1 := by omega
      subst hrm
      simp only [pollLoop, if_pos (by omega : mR + 1 > mR)]
    · have hp : (polls r).status = .pending := h2 r (Nat.le_refl r) hr
      simp only [pollLoop, if_neg (by omega : ¬r > mR), hp, if_pos rfl]
      exact ih (r + 1) (by omega) (fun i hi1 hi2 => h2 i (by omega) hi2) (by omega)

theorem pollLoop_ok_spec (polls : Nat → OpResponseData) (mR : Nat) :
    ∀ fuel r resp n, pollLoop polls mR fuel r = some (.ok resp, n) →
      resp = polls (n - 1) ∧ r < n ∧ resp.status ≠ .pending := by
  intro fuel
  induction fuel with
  | zero => intro r resp n h; exact absurd h (by simp [pollLoop])
  | succ f ih =>
    intro r resp n h
    by_cases hm : r > mR
    · simp [pollLoop, if_pos hm] at h
    · by_cases hp : (polls r).status = .pending
      · simp only [pollLoop, if_neg hm, hp, if_pos rfl] at h
        have := ih (r + 1) resp n h
        exact ⟨this.1, by omega, this.2.2⟩
      · simp only [pollLoop, if_neg hm, if_neg hp, Option.some.injEq, Prod.mk.injEq,
          Except.ok.injEq] at h
        obtain ⟨h1, h2⟩ := h
        have hn : n - 1 = r := by omega
        refine ⟨?_, by omega, ?_⟩
        · rw [hn, ← h1]
        · rw [← h1]; exact hp

/-- C2: `_getResult` with status sequence [PENDING, PENDING, COMPLETED] and a
configured maximum of at least 2 retries returns the COMPLETED payload (after
3 polls); with only PENDING responses it throws the retries-exhausted error
after exactly maxRetries + 1 polls. -/
theorem getResult_pending_sequences :
    (∀ polls m, 2 ≤ m →
      (polls 0).status = .pending → (polls 1).status = .pending →
      (polls 2).status = .completed →
      getResult polls m (m + 2) = some (.ok (polls 2), 3))
    ∧ (∀ polls m fuel, (∀ i, i ≤ m → (polls i).status = .pending) → m + 2 ≤ fuel →
      getResult polls m fuel = some (.error .retriesExhausted, m + 1)) := by
  constructor
  · intro polls m hm h0 h1 h2
    have hloop : pollLoop polls m (m + 2) 0 = some (.ok (polls 2), 3) := by
      apply pollLoop_run polls m (m + 2) 0 2 (by omega) (by omega)
      · intro i hi1 hi2
        interval_cases i
        · exact h0
        · exact h1
      · rw [h2]; decide
      · omega
    simp only [getResult, hloop]
    rw [if_neg (by rw [h2]; decide)]
  · intro polls m fuel hp hf
    have hloop : pollLoop polls m fuel 0 = some (.error (), m + 1) :=
      pollLoop_exhaust polls m fuel 0 (by omega) (fun i hi1 hi2 => hp i hi2) (by omega)
    simp only [getResult, hloop]

theorem getResult_pending_sequences_witness :
    getResult ppcSeq 2 4 = some (.ok (ppcSeq 2), 3) ∧
    getResult pendConst 1 4 = some (.error .retriesExhausted, 2) :=
  ⟨getResult_pending_sequences.1 ppcSeq 2 (by decide) (by decide) (by decide) (by decide),
    getResult_pending_sequences.2 pendConst 1 4 (fun i hi => rfl) (by decide)⟩

/-- C3: `_getResult` never hands a PENDING result to its caller — whenever it
returns it returns a COMPLETED payload, and whenever it throws it throws
either the retries-exhausted error or, on a FAILED response, an error
carrying the server-supplied message (concretely: a FAILED response with
message "bad request" raises an error carrying "bad request"). -/
theorem getResult_never_pending :
    (∀ polls m fuel out n, getResult polls m fuel = some (out, n) →
      match out with
      | .ok d => d.status = .completed
      | .error .retriesExhausted => True
      | .error (.operationFailed msg) =>
          (polls (n - 1)).status = .failed ∧ (polls (n - 1)).message = msg)
    ∧ getResult failBadRequest 5 8 = some (.error (.operationFailed ("bad request")), 1) := by
  refine ⟨?_, by decide⟩
  intro polls m fuel out n h
  rcases hl : pollLoop polls m fuel 0 with _ | ⟨er | resp, k⟩
  · simp [getResult, hl] at h
  · simp only [getResult, hl, Option.some.injEq, Prod.mk.injEq] at h
    obtain ⟨rfl, rfl⟩ := h
    trivial
  · have hspec := pollLoop_ok_spec polls m fuel 0 resp k hl
    by_cases hf : resp.status = .failed
    · simp only [getResult, hl, if_pos hf, Option.some.injEq, Prod.mk.injEq] at h
      obtain ⟨rfl, rfl⟩ := h
      refine ⟨?_, ?_⟩
      · rw [← hspec.1]; exact hf
      · rw [← hspec.1]
    · simp only [getResult, hl, if_neg hf, Option.some.injEq, Prod.mk.injEq] at h
      obtain ⟨rfl, rfl⟩ := h
      rcases hresp : resp.status with _ | _ | _
      · exact absurd hresp hspec.2.2
      · exact hresp
      · exact absurd hresp hf

theorem getResult_never_pending_witness :
    getResult completedConst 5 8 =
      some (.ok { status := .completed, message := "", body := 7 }, 1) ∧
    ({ status := OpStatus.completed, message := "", body := 7 } : OpResponseData).status =
      OpStatus.completed :=
  ⟨by decide,
    getResult_never_pending.1 completedConst 5 8
      (.ok { status := .completed, message := "", body := 7 }) 1 (by decide)⟩

/-! ## Streaming search poller lemmas and claim theorem -/

theorem getSearchLoop_spec (responses : Nat → SearchPayload) (timeoutFlag : Nat → Bool)
    (target : Nat) :
    ∀ fuel t p n, getSearchLoop responses timeoutFlag target fuel t = some (p, n) →
      t < n ∧ p = responses (n - 1) ∧
      (∀ j, t ≤ j → j + 1 < n → timeoutFlag j = false ∧ (responses j).itemCount < target) ∧
      (timeoutFlag (n - 1) = true ∨ target ≤ (responses (n - 1)).itemCount) := by
  intro fuel
  induction fuel with
  | zero => intro t p n h; exact absurd h (by simp [getSearchLoop])
  | succ f ih =>
    intro t p n h
    by_cases hc : timeoutFlag t = false ∧ (responses t).itemCount < target
    · simp only [getSearchLoop, if_pos hc] at h
      have hrec := ih (t + 1) p n h
      refine ⟨by omega, hrec.2.1, ?_, hrec.2.2.2⟩
      intro j hj1 hj2
      rcases Nat.lt_or_ge j (t + 1) with hj | hj
      · have hjt : j = t := by omega
        subst hjt
        exact hc
      · exact hrec.2.2.1 j hj hj2
    · simp only [getSearchLoop, if_neg hc, Option.some.injEq, Prod.mk.injEq] at h
      obtain ⟨rfl, rfl⟩ := h
      rw [Nat.add_sub_cancel]
      refine ⟨by omega, rfl, ?_, ?_⟩
      · intro j hj1 hj2
        exact absurd hj2 (by omega)
      · rcases hflag : timeoutFlag t with _ | _
        · right
          by_contra hcount
          push_neg at hcount
          exact hc ⟨hflag, hcount⟩
        · left; rfl

/-- C6: the streaming search poller loops exactly while the one-shot timeout
flag has not been observed and the current result count is below the target,
and on termination returns the last fetched payload; with counts [5, 50, 2000],
target 2000 and the flag never raised, it performs exactly 3 ticks and returns
the payload with count 2000; when the flag is observed raised before the
target is reached, it terminates and returns the last fetched payload. -/
theorem getSearchResult_termination :
    (∀ responses timeoutFlag target fuel p n,
      getSearchResult responses timeoutFlag target fuel = some (p, n) →
      1 ≤ n ∧ p = responses (n - 1) ∧
      (∀ t, t + 1 < n → timeoutFlag t = false ∧ (responses t).itemCount < target) ∧
      (timeoutFlag (n - 1) = true ∨ target ≤ (responses (n - 1)).itemCount))
    ∧ getSearchResult searchSeq falseFlag 2000 10 =
        some ({ itemCount := 2000, body := 2 }, 3)
    ∧ getSearchResult searchSeq flagFromOne 10000 10 =
        some ({ itemCount := 50, body := 1 }, 2) := by
  refine ⟨?_, by decide, by decide⟩
  intro responses timeoutFlag target fuel p n h
  have hrec := getSearchLoop_spec responses timeoutFlag target fuel 0 p n h
  exact ⟨by omega, hrec.2.1, fun t ht => hrec.2.2.1 t (Nat.zero_le t) ht, hrec.2.2.2⟩

theorem getSearchResult_termination_witness :
    getSearchResult searchSeq falseFlag 2000 10 =
      some ({ itemCount := 2000, body := 2 }, 3) ∧
    (falseFlag (3 - 1) = true ∨ 2000 ≤ (searchSeq (3 - 1)).itemCount) :=
  ⟨by decide,
    (getSearchResult_termination.1 searchSeq falseFlag 2000 10
      { itemCount := 2000, body := 2 } 3 (by decide)).2.2.2⟩

/-- C7 (code_bug evaluation): because the body of `_validateProof` is
entirely commented out, a non-null proof entry yields the record
`{triple, valid: undefined}` — never `{valid: true}`, whatever the root
hash — while a null proof entry indeed yields no record. -/
theorem performValidation_stub_behavior :
    performValidation constRootHash matchingProofInput =
      [{ triple := "t1", valid := .undefinedVal }] ∧
    performValidation constRootHash nullProofInput = [] ∧
    JsBoolVal.undefinedVal ≠ JsBoolVal.jbool true := by
  exact ⟨by decide, by decide, by decide⟩

/-! ## Constructor defaults claim theorem -/

/-- C10: passing 0 (or any negative number) for `maxNumberOfRetries`,
`timeoutInSeconds`, `numberOfResults` or `frequency` makes the constructor
fall back to the defaults 5, 25, 2000 and 5 respectively, so a zero value
cannot be configured through the constructor. -/
theorem constructor_defaults_nonpositive :
    ∀ (o : ClientOptions) (v : Int), v ≤ 0 →
      (o.maxNumberOfRetries = some v → (mkAbstractClient o).maxNumberOfRetries = 5) ∧
      (o.timeoutInSeconds = some v → (mkAbstractClient o).timeoutInSeconds = 25) ∧
      (o.numberOfResults = some v → (mkAbstractClient o).numberOfResults = 2000) ∧
      (o.frequency = some v → (mkAbstractClient o).frequency = 5) := by
  intro o v hv
  have hpick : ∀ d : Int, pickOption (some v) d = d := by
    intro d
    have hred : pickOption (some v) d =
        if (truthy (JsVal.vNum v) && decide (v ≥ 0)) = true then v else d := rfl
    rw [hred, if_neg]
    intro hcon
    simp only [truthy, Bool.and_eq_true, decide_eq_true_eq] at hcon
    omega
  refine ⟨?_, ?_, ?_, ?_⟩ <;> (intro he; simp only [mkAbstractClient, he, hpick])

theorem constructor_defaults_nonpositive_witness :
    (mkAbstractClient zeroOptions).maxNumberOfRetries = 5 ∧
    (mkAbstractClient zeroOptions).timeoutInSeconds = 25 ∧
    (mkAbstractClient zeroOptions).numberOfResults = 2000 ∧
    (mkAbstractClient zeroOptions).frequency = 5 :=
  ⟨(constructor_defaults_nonpositive zeroOptions 0 (by decide)).1 rfl,
    (constructor_defaults_nonpositive zeroOptions 0 (by decide)).2.1 rfl,
    (constructor_defaults_nonpositive zeroOptions 0 (by decide)).2.2.1 rfl,
    (constructor_defaults_nonpositive zeroOptions 0 (by decide)).2.2.2 rfl⟩
